import Mathlib

/-!
Verification development for the `biblib` citation library.

The canonical data model (`Author`, `Citation`, `DuplicateGroup`), the error
taxonomy (`CitationError`) and the adapter error conversions are embedded from
`src/src/lib.rs`.  The deduplication engine (normalizer, similarity scorer,
clusterer, canonical selector, orchestrator) lives in the crate's `dedupe`
module, which is declared in `lib.rs` but whose source is not part of this
tree; those components are modelled from the specification (sections 4.1-4.5),
as indicated on each definition.

Strings are modelled as lists of Unicode code points (`Str := List Nat`);
machine integers (`i32` years) are modelled as `Int`; the `f64` composite
score is modelled as `ℚ` (the idealized arithmetic of the spec's weights).
-/

namespace Biblib

/-- Strings, modelled as lists of Unicode code points. -/
abbrev Str := List Nat

/-- Represents an author of a citation (from `lib.rs`, `struct Author`). -/
structure Author where
  family_name : Str
  given_name : Str
  affiliation : Option Str
deriving DecidableEq, Repr

/-- Represents a single citation with its metadata (from `lib.rs`, `struct Citation`).
`extra_fields` (a `HashMap<String, Vec<String>>`) is modelled as an association list. -/
structure Citation where
  id : Str
  citation_type : List Str
  title : Str
  authors : List Author
  journal : Option Str
  journal_abbr : Option Str
  year : Option Int
  volume : Option Str
  issue : Option Str
  pages : Option Str
  issn : List Str
  doi : Option Str
  pmid : Option Str
  pmc_id : Option Str
  abstract_text : Option Str
  keywords : List Str
  urls : List Str
  language : Option Str
  mesh_terms : List Str
  publisher : Option Str
  extra_fields : List (Str × List Str)
  source : Option Str
deriving DecidableEq, Repr

/-- The `#[derive(Default)]` instance of `Citation`: every string empty, every
collection empty, every optional field absent (from `lib.rs`). -/
def Citation.default : Citation where
  id := []
  citation_type := []
  title := []
  authors := []
  journal := none
  journal_abbr := none
  year := none
  volume := none
  issue := none
  pages := none
  issn := []
  doi := none
  pmid := none
  pmc_id := none
  abstract_text := none
  keywords := []
  urls := []
  language := none
  mesh_terms := []
  publisher := none
  extra_fields := []
  source := none

/-- A group of duplicate citations with one unique citation (from `lib.rs`,
`struct DuplicateGroup`). -/
structure DuplicateGroup where
  unique : Citation
  duplicates : List Citation
deriving DecidableEq, Repr

/-- The payload of `std::io::Error`, external to the crate; only its display
string is observable through `CitationError`. -/
structure IoErr where
  display : Str
deriving DecidableEq, Repr

/-- Errors that occur during citation operations (from `lib.rs`,
`enum CitationError`). -/
inductive CitationError where
  | Io : IoErr → CitationError
  | InvalidFormat : Str → CitationError
  | MissingField : Str → CitationError
  | InvalidFieldValue : (field : Str) → (message : Str) → CitationError
  | MalformedInput : (message : Str) → (line : Nat) → CitationError
  | Other : Str → CitationError
deriving DecidableEq, Repr

/-- The error type of the `csv` crate, external; only its display string is
observed by the conversion in `lib.rs`. -/
structure CsvErr where
  display : Str
deriving DecidableEq, Repr

/-- The error type of the `quick_xml` crate, external; only its display string
is observed by the conversion in `lib.rs`. -/
structure QuickXmlErr where
  display : Str
deriving DecidableEq, Repr

/-- `quick_xml::events::attributes::AttrError`, external; only its display
string is observed by the conversion in `lib.rs`. -/
structure AttrErr where
  display : Str
deriving DecidableEq, Repr

/-- `impl From<csv_crate::Error> for CitationError` (from `lib.rs`):
`CitationError::InvalidFormat(err.to_string())`. -/
def fromCsvErr (e : CsvErr) : CitationError := CitationError.InvalidFormat e.display

/-- `impl From<quick_xml::Error> for CitationError` (from `lib.rs`):
`CitationError::InvalidFormat(err.to_string())`. -/
def fromQuickXmlErr (e : QuickXmlErr) : CitationError := CitationError.InvalidFormat e.display

/-- `impl From<AttrError> for CitationError` (from `lib.rs`):
`CitationError::InvalidFormat(err.to_string())`. -/
def fromAttrErr (e : AttrErr) : CitationError := CitationError.InvalidFormat e.display

/-- The componentwise equality induced by `#[derive(PartialEq)]` on `Author`
(from `lib.rs`). -/
def authorBeq (a b : Author) : Bool :=
  decide (a.family_name = b.family_name) && decide (a.given_name = b.given_name)
    && decide (a.affiliation = b.affiliation)

/-- Deduplicator configuration (from the spec's `DeduplicatorConfig` and the
doc example in `lib.rs`). -/
structure DeduplicatorConfig where
  group_by_year : Bool
  run_in_parallel : Bool
  source_preferences : List Str
deriving DecidableEq, Repr

/-! ### Field normalizer

Modelled from the spec: the `dedupe` module's normalizer (spec section 4.1) is
not present under `src/`.  Rules embedded: lowercase, fold accented characters
to base Latin letters, drop non-semantic punctuation, split on whitespace and
rejoin with single spaces (which trims and collapses whitespace runs). -/

/-- Whitespace code points (space, tab, line feed, carriage return). -/
def isSpace (n : Nat) : Bool := n = 32 || n = 9 || n = 10 || n = 13

/-- Modelled from the spec: ASCII lowercasing of one code point. -/
def toLowerN (n : Nat) : Nat := if 65 ≤ n ∧ n ≤ 90 then n + 32 else n

/-- Modelled from the spec: fold Latin-1 accented letters to base letters. -/
def foldAccent (n : Nat) : Nat :=
  if (192 ≤ n ∧ n ≤ 197) ∨ (224 ≤ n ∧ n ≤ 229) then 97
  else if n = 199 ∨ n = 231 then 99
  else if (200 ≤ n ∧ n ≤ 203) ∨ (232 ≤ n ∧ n ≤ 235) then 101
  else if (204 ≤ n ∧ n ≤ 207) ∨ (236 ≤ n ∧ n ≤ 239) then 105
  else if n = 209 ∨ n = 241 then 110
  else if (210 ≤ n ∧ n ≤ 214) ∨ (242 ≤ n ∧ n ≤ 246) then 111
  else if (217 ≤ n ∧ n ≤ 220) ∨ (249 ≤ n ∧ n ≤ 252) then 117
  else if n = 221 ∨ n = 253 ∨ n = 255 then 121
  else n

/-- Modelled from the spec: per-character canonicalization (accent folding
then lowercasing). -/
def foldChar (n : Nat) : Nat := toLowerN (foldAccent n)

/-- Punctuation dropped by normalization: period, comma, double quote,
apostrophe, colon, semicolon. -/
def isDropped (n : Nat) : Bool := n = 46 || n = 44 || n = 34 || n = 39 || n = 58 || n = 59

/-- Characters kept by the punctuation filter. -/
def keep (n : Nat) : Bool := !(isDropped n)

/-- Split into maximal runs delimited by whitespace; the auxiliary version
keeps empty runs (its result is never the empty list). -/
def wordsAux : Str → List Str
  | [] => [[]]
  | c :: cs =>
    let r := wordsAux cs
    if isSpace c then [] :: r else (c :: r.headD []) :: r.tail

/-- The whitespace-delimited words of a string (empty runs removed). -/
def words (l : Str) : List Str := (wordsAux l).filter (fun w => w ≠ [])

/-- Rejoin words with single spaces. -/
def joinWords : List Str → Str
  | [] => []
  | [w] => w
  | w :: x :: ws => w ++ 32 :: joinWords (x :: ws)

/-- Modelled from the spec: the normalizer of the missing `dedupe` module
(section 4.1): lowercase, fold accents, strip punctuation, trim and collapse
whitespace.  A pure function. -/
def normalize (s : Str) : Str := joinWords (words ((s.map foldChar).filter keep))

/-- Modelled from the spec: the normalized author key, built from the folded
family name plus the first initial of the given name. -/
def authorKey (a : Author) : Str :=
  normalize a.family_name ++
    (match normalize a.given_name with
     | [] => []
     | c :: _ => [32, c])

/-! ### Similarity scorer

Modelled from the spec: the `dedupe` module's scorer (spec section 4.2) is not
present under `src/`. -/

/-- Levenshtein edit distance, driven by explicit fuel so that it is
structurally recursive; `lev` supplies sufficient fuel. -/
def levFuel : Nat → Str → Str → Nat
  | 0, xs, ys => xs.length + ys.length
  | _ + 1, [], ys => ys.length
  | _ + 1, x :: xs, [] => (x :: xs).length
  | f + 1, x :: xs, y :: ys =>
    if x = y then levFuel f xs ys
    else 1 + min (levFuel f xs ys) (min (levFuel f (x :: xs) ys) (levFuel f xs (y :: ys)))

/-- Levenshtein edit distance between two strings. -/
def lev (xs ys : Str) : Nat := levFuel (xs.length + ys.length) xs ys

/-- Jaccard similarity of two finite sets (0 when both are empty). -/
def jaccard (A B : Finset Str) : ℚ :=
  if (A ∪ B).card = 0 then 0 else ((A ∩ B).card : ℚ) / ((A ∪ B).card : ℚ)

/-- The normalized token set of a citation's title. -/
def titleTokens (c : Citation) : Finset Str :=
  (words ((c.title.map foldChar).filter keep)).toFinset

/-- The normalized title string of a citation. -/
def normTitle (c : Citation) : Str := normalize c.title

/-- Length-normalized edit-distance similarity ratio. -/
def editRatio (x y : Str) : ℚ :=
  if max x.length y.length = 0 then 1
  else 1 - (lev x y : ℚ) / ((max x.length y.length : Nat) : ℚ)

/-- Title similarity: the higher of token-set Jaccard and the edit-distance
ratio (spec section 4.2). -/
def titleSim (a b : Citation) : ℚ :=
  max (jaccard (titleTokens a) (titleTokens b)) (editRatio (normTitle a) (normTitle b))

/-- The title term participates only when both normalized titles are
non-empty (zero title weight when a title is blank). -/
def titleAvail (a b : Citation) : Bool :=
  decide (normTitle a ≠ []) && decide (normTitle b ≠ [])

/-- Both normalized titles are empty.  Per the spec's edge case, this zeroes
the title term without redistributing its weight, so that two blank records
cannot match on the remaining fields alone. -/
def titleBlankBoth (a b : Citation) : Bool :=
  decide (normTitle a = []) && decide (normTitle b = [])

/-- The set of normalized author keys of a citation. -/
def authorKeys (c : Citation) : Finset Str := (c.authors.map authorKey).toFinset

/-- Author overlap: matching normalized keys over the union size. -/
def authorSim (a b : Citation) : ℚ := jaccard (authorKeys a) (authorKeys b)

/-- The author term participates only when both sides have author keys. -/
def authorAvail (a b : Citation) : Bool :=
  decide (authorKeys a ≠ ∅) && decide (authorKeys b ≠ ∅)

/-- The year term participates only when both years are present. -/
def yearAvail (a b : Citation) : Bool := a.year.isSome && b.year.isSome

/-- Year similarity: exact match scores 1, off-by-one scores 1/2, larger
differences score 0 (spec section 4.2). -/
def yearSim (a b : Citation) : ℚ :=
  match a.year, b.year with
  | some x, some y => if x = y then 1 else if x - y = 1 ∨ y - x = 1 then 1/2 else 0
  | _, _ => 0

/-- Whether a citation carries any journal data. -/
def hasJournalData (c : Citation) : Bool := c.journal.isSome || c.journal_abbr.isSome

/-- The journal term participates only when both sides carry journal data. -/
def journalAvail (a b : Citation) : Bool := hasJournalData a && hasJournalData b

/-- Normalized journal name. -/
def njournal (c : Citation) : Option Str := c.journal.map normalize

/-- Normalized journal abbreviation. -/
def njabbr (c : Citation) : Option Str := c.journal_abbr.map normalize

/-- Equality on two optional normalized strings; false when either is absent. -/
def pairEq (o p : Option Str) : Bool :=
  match o, p with
  | some x, some y => decide (x = y)
  | _, _ => false

/-- Journal match: normalized equality of names or abbreviations, or an
abbreviation-expansion match in either direction (spec section 4.2). -/
def journalMatch (a b : Citation) : Bool :=
  pairEq (njournal a) (njournal b) || (pairEq (njabbr a) (njabbr b) ||
    (pairEq (njournal a) (njabbr b) || pairEq (njabbr a) (njournal b)))

/-- Journal similarity signal. -/
def journalSim (a b : Citation) : ℚ := if journalMatch a b then 1 else 0

/-- Both identifiers present and non-empty with equal normalizations. -/
def idMatch (o p : Option Str) : Bool :=
  match o, p with
  | some x, some y => decide (x ≠ []) && decide (y ≠ []) && decide (normalize x = normalize y)
  | _, _ => false

/-- DOI fast-path condition: both DOIs non-empty and equal after
normalization. -/
def doiMatch (a b : Citation) : Bool := idMatch a.doi b.doi

/-- PMID fast-path condition: both PMIDs present, non-empty and equal after
normalization. -/
def pmidMatch (a b : Citation) : Bool := idMatch a.pmid b.pmid

/-- Identifier fast path: DOI or PMID match (spec section 4.2, step 1). -/
def fastPath (a b : Citation) : Bool := doiMatch a b || pmidMatch a b

/-- The total weight against which the weighted sum is renormalized (spec
weights 0.5 / 0.25 / 0.15 / 0.10).  A field missing on either side drops out
of this total, redistributing its weight proportionally among the remaining
fields — except the title when blank on both sides: per the spec's edge case
its zeroed weight stays in the total, so blank records are dampened rather
than compared purely on the remaining fields. -/
def totalWeight (a b : Citation) : ℚ :=
  (if titleAvail a b then (1 : ℚ)/2 else 0) + ((if authorAvail a b then (1 : ℚ)/4 else 0) +
    ((if yearAvail a b then (3 : ℚ)/20 else 0) + ((if journalAvail a b then (1 : ℚ)/10 else 0) +
      (if titleBlankBoth a b then (1 : ℚ)/2 else 0))))

/-- The weighted sum of the available field similarities. -/
def weightedSum (a b : Citation) : ℚ :=
  (if titleAvail a b then ((1 : ℚ)/2) * titleSim a b else 0) +
    ((if authorAvail a b then ((1 : ℚ)/4) * authorSim a b else 0) +
      ((if yearAvail a b then ((3 : ℚ)/20) * yearSim a b else 0) +
        (if journalAvail a b then ((1 : ℚ)/10) * journalSim a b else 0)))

/-- The fixed high-confidence duplicate threshold (spec: 0.85). -/
def threshold : ℚ := 17/20

/-- The composite similarity: the weighted sum renormalized over the available
weight, clamped to [0,1]; 0 when no field is available. -/
def composite (a b : Citation) : ℚ :=
  if totalWeight a b = 0 then 0 else min 1 (max 0 (weightedSum a b / totalWeight a b))

/-- The result of scoring a pair of citations. -/
structure ScoreResult where
  composite : ℚ
  is_duplicate : Bool
deriving DecidableEq, Repr

/-- Modelled from the spec: the similarity scorer of the missing `dedupe`
module (section 4.2): identifier fast path, then thresholded weighted
composite. -/
def score (a b : Citation) : ScoreResult :=
  if fastPath a b then ⟨1, true⟩
  else ⟨composite a b, decide (threshold ≤ composite a b)⟩

/-! ### Clusterer, canonical selector and orchestrator

Modelled from the spec: the `dedupe` module's clusterer, selector and
orchestrator (spec sections 4.3-4.5) are not present under `src/`. -/

/-- Whether the scorer judges two citations duplicates. -/
def isDup (a b : Citation) : Bool := (score a b).is_duplicate

/-- Functional update of one position of a parent vector. -/
def setNth : List Nat → Nat → Nat → List Nat
  | [], _, _ => []
  | _ :: t, 0, v => v :: t
  | h :: t, i + 1, v => h :: setNth t i v

/-- Union-find root lookup with explicit fuel. -/
def ufFind (parent : List Nat) : Nat → Nat → Nat
  | 0, i => i
  | f + 1, i =>
    let p := parent.getD i i
    if p = i then i else ufFind parent f p

/-- Union of the classes of `i` and `j` in the parent vector. -/
def ufUnion (parent : List Nat) (i j : Nat) : List Nat :=
  let ri := ufFind parent parent.length i
  let rj := ufFind parent parent.length j
  if ri = rj then parent else setNth parent ri rj

/-- All unordered index pairs `(i, j)` with `i < j < n`, in scan order. -/
def allPairs (n : Nat) : List (Nat × Nat) :=
  (List.range n).flatMap
    (fun i => ((List.range n).filter (fun j => i < j)).map (fun j => (i, j)))

/-- Keep the first occurrence of each element, in first-occurrence order. -/
def firstDedup {α : Type} [DecidableEq α] : List α → List α
  | [] => []
  | a :: l => a :: (firstDedup l).filter (fun b => b ≠ a)

/-- Union-find parent vector after processing every unordered pair of the
input slice (spec section 4.3). -/
def clusterParents (cs : List Citation) : List Nat :=
  (allPairs cs.length).foldl
    (fun p ij =>
      if isDup (cs.getD ij.1 Citation.default) (cs.getD ij.2 Citation.default) then
        ufUnion p ij.1 ij.2
      else p)
    (List.range cs.length)

/-- Modelled from the spec: the clusterer of the missing `dedupe` module
(section 4.3): transitive-closure clustering by union-find; clusters are
listed in discovery (first-occurrence) order and hold ascending indices into
the input slice. -/
def clusters (cs : List Citation) : List (List Nat) :=
  let p := clusterParents cs
  let rs := (List.range cs.length).map (fun i => ufFind p cs.length i)
  (firstDedup rs).map (fun r => (List.range cs.length).filter (fun i => rs.getD i 0 = r))

/-- Source rank: position in `source_preferences` (earlier is better); absent
or unlisted sources rank below every listed source. -/
def srcRank (prefs : List Str) (c : Citation) : Nat :=
  match c.source with
  | none => prefs.length
  | some s => prefs.indexOf s

/-- Completeness: the count of non-empty / non-absent fields of a citation. -/
def completeness (c : Citation) : Nat :=
  (if c.id ≠ [] then 1 else 0) + (if c.citation_type ≠ [] then 1 else 0) +
  (if c.title ≠ [] then 1 else 0) + (if c.authors ≠ [] then 1 else 0) +
  (if c.journal.isSome then 1 else 0) + (if c.journal_abbr.isSome then 1 else 0) +
  (if c.year.isSome then 1 else 0) + (if c.volume.isSome then 1 else 0) +
  (if c.issue.isSome then 1 else 0) + (if c.pages.isSome then 1 else 0) +
  (if c.issn ≠ [] then 1 else 0) + (if c.doi.isSome then 1 else 0) +
  (if c.pmid.isSome then 1 else 0) + (if c.pmc_id.isSome then 1 else 0) +
  (if c.abstract_text.isSome then 1 else 0) + (if c.keywords ≠ [] then 1 else 0) +
  (if c.urls ≠ [] then 1 else 0) + (if c.language.isSome then 1 else 0) +
  (if c.mesh_terms ≠ [] then 1 else 0) + (if c.publisher.isSome then 1 else 0) +
  (if c.extra_fields ≠ [] then 1 else 0) + (if c.source.isSome then 1 else 0)

/-- Strictly better ranking for canonical selection: lower source rank, then
higher completeness (spec section 4.4); ties fall to first-seen order. -/
def better (prefs : List Str) (c d : Citation) : Bool :=
  decide (srcRank prefs c < srcRank prefs d) ||
    (decide (srcRank prefs c = srcRank prefs d) && decide (completeness d < completeness c))

/-- The index of the canonical representative within a cluster (first-seen
wins on ties). -/
def selectIdx (prefs : List Str) (cl : List Citation) : Nat :=
  (cl.enum.foldl (fun b ic => if better prefs ic.2 b.2 then ic else b)
    (0, cl.getD 0 Citation.default)).1

/-- Modelled from the spec: the canonical selector of the missing `dedupe`
module (section 4.4): the best-ranked citation becomes `unique`, the others
keep their original relative order as `duplicates`. -/
def select (prefs : List Str) (cl : List Citation) : DuplicateGroup :=
  let i := selectIdx prefs cl
  ⟨cl.getD i Citation.default, cl.eraseIdx i⟩

/-- Modelled from the spec: year partitioning of the missing `dedupe` module
(section 4.3): bucket by year value (first-occurrence order), absent years
forming their own bucket; without `group_by_year` the input is one partition. -/
def partitions (cfg : DeduplicatorConfig) (cs : List Citation) : List (List Citation) :=
  if cfg.group_by_year then
    (firstDedup (cs.map (fun c => c.year))).map
      (fun y => cs.filter (fun c => decide (c.year = y)))
  else [cs]

/-- Process one partition: cluster it, keep clusters of size at least two,
and run canonical selection on each (spec section 4.5). -/
def processPart (prefs : List Str) (p : List Citation) : List DuplicateGroup :=
  ((clusters p).filter (fun cl => 2 ≤ cl.length)).map
    (fun idxs => select prefs (idxs.map (fun i => p.getD i Citation.default)))

/-- Run `f` over the partitions following an explicit completion schedule and
reassemble the results into input order by partition index. -/
def parRunWith {α β : Type} (f : α → β) (da : α) (d : β) (sched : List Nat)
    (parts : List α) : List β :=
  let jobs := sched.map (fun i => (i, f (parts.getD i da)))
  (List.range parts.length).map (fun i => (jobs.lookup i).getD d)

/-- Modelled from the spec: the parallel fan-out of the missing `dedupe`
module (section 5): partitions complete in an arbitrary order (here the worst
case, reverse order) and the orchestrator reassembles the results into the
deterministic sequential order. -/
def parRun (f : List Citation → List DuplicateGroup) (parts : List (List Citation)) :
    List (List DuplicateGroup) :=
  parRunWith f [] [] ((List.range parts.length).reverse) parts

/-- Modelled from the spec: `Deduplicator::find_duplicates` of the missing
`dedupe` module (section 4.5): partition, cluster each partition (in parallel
when configured), emit a `DuplicateGroup` for every cluster of size at least
two, in partition order then cluster-discovery order. -/
def find_duplicates (cfg : DeduplicatorConfig) (cs : List Citation) : List DuplicateGroup :=
  let parts := partitions cfg cs
  let results :=
    if cfg.run_in_parallel then parRun (processPart cfg.source_preferences) parts
    else parts.map (processPart cfg.source_preferences)
  results.flatten

/-! ### Concrete example citations used to instantiate the theorems -/

/-- A citation with a DOI and a title. -/
def cA : Citation := { Citation.default with doi := some [97], title := [102, 111, 111] }

/-- A citation with the same DOI as `cA` and nothing else. -/
def cB : Citation := { Citation.default with doi := some [97] }

/-- A citation with DOI "d" and year 2000. -/
def cY1 : Citation := { Citation.default with doi := some [100], year := some 2000 }

/-- A citation with the same DOI as `cY1` but year 1990. -/
def cY2 : Citation := { Citation.default with doi := some [100], year := some 1990 }

/-- A blank citation (empty title, no authors, no year) carrying DOI "x". -/
def cBlank1 : Citation := { Citation.default with doi := some [120] }

/-- A second blank citation carrying the same DOI "x" and a distinct id. -/
def cBlank2 : Citation := { Citation.default with doi := some [120], id := [98] }

/-- A blank citation (empty title, no authors, no year, no identifiers)
carrying journal "n". -/
def cEmptyA : Citation := { Citation.default with journal := some [110] }

/-- A blank citation with the same journal "n" and a sole author "S, j";
shares no author keys with `cEmptyA`. -/
def cEmptyB : Citation :=
  { Citation.default with journal := some [110], authors := [⟨[115], [106], none⟩] }

/-! ## Theorems -/

/-- C7: all errors across the library are surfaced through the single tagged
union `CitationError`: every value is exactly one of `Io`, `InvalidFormat`,
`MissingField`, `InvalidFieldValue { field, message }`,
`MalformedInput { message, line }` or `Other`. -/
theorem citationError_closed_taxonomy (e : CitationError) :
    (∃ io, e = CitationError.Io io) ∨ (∃ m, e = CitationError.InvalidFormat m) ∨
    (∃ n, e = CitationError.MissingField n) ∨
    (∃ f m, e = CitationError.InvalidFieldValue f m) ∨
    (∃ m l, e = CitationError.MalformedInput m l) ∨ (∃ m, e = CitationError.Other m) := by
  cases e with
  | Io io => exact Or.inl ⟨io, rfl⟩
  | InvalidFormat m => exact Or.inr (Or.inl ⟨m, rfl⟩)
  | MissingField n => exact Or.inr (Or.inr (Or.inl ⟨n, rfl⟩))
  | InvalidFieldValue f m => exact Or.inr (Or.inr (Or.inr (Or.inl ⟨f, m, rfl⟩)))
  | MalformedInput m l => exact Or.inr (Or.inr (Or.inr (Or.inr (Or.inl ⟨m, l, rfl⟩))))
  | Other m => exact Or.inr (Or.inr (Or.inr (Or.inr (Or.inr ⟨m, rfl⟩))))

/-- C8: author equality is structural: the derived equality test agrees with
propositional equality, and two authors are equal exactly when `family_name`,
`given_name` and `affiliation` are componentwise equal (so a differing or
absent affiliation makes otherwise-identical authors unequal). -/
theorem author_equality_structural (a b : Author) :
    (authorBeq a b = true ↔ a = b) ∧
    (a = b ↔ a.family_name = b.family_name ∧ a.given_name = b.given_name ∧
      a.affiliation = b.affiliation) := by
  cases a with
  | mk f g aff =>
    cases b with
    | mk f2 g2 aff2 =>
      constructor
      · simp [authorBeq, Author.mk.injEq, and_assoc]
      · simp [Author.mk.injEq]

/-- C9: `title` is a plain (never absent) string field of `Citation`, and the
derived default citation is the all-empty/absent record: empty strings,
empty sequences, empty `extra_fields` mapping, and `none` for every optional
field including `year`, `doi`, `pmid` and `source`. -/
theorem citation_default_all_empty :
    Citation.default.id = [] ∧ Citation.default.citation_type = [] ∧
    Citation.default.title = [] ∧ Citation.default.authors = [] ∧
    Citation.default.journal = none ∧ Citation.default.journal_abbr = none ∧
    Citation.default.year = none ∧ Citation.default.volume = none ∧
    Citation.default.issue = none ∧ Citation.default.pages = none ∧
    Citation.default.issn = [] ∧ Citation.default.doi = none ∧
    Citation.default.pmid = none ∧ Citation.default.pmc_id = none ∧
    Citation.default.abstract_text = none ∧ Citation.default.keywords = [] ∧
    Citation.default.urls = [] ∧ Citation.default.language = none ∧
    Citation.default.mesh_terms = [] ∧ Citation.default.publisher = none ∧
    Citation.default.extra_fields = [] ∧ Citation.default.source = none :=
  ⟨rfl, rfl, rfl, rfl, rfl, rfl, rfl, rfl, rfl, rfl, rfl, rfl, rfl, rfl, rfl, rfl, rfl,
    rfl, rfl, rfl, rfl, rfl⟩

/-- C10: the conversions from the csv error type, the quick-xml error type and
the XML attribute error type into `CitationError` always produce the
`InvalidFormat` variant carrying the source error's display string, never
`Io`, `Other` or any other variant. -/
theorem conversions_always_invalid_format :
    (∀ e : CsvErr, fromCsvErr e = CitationError.InvalidFormat e.display) ∧
    (∀ e : QuickXmlErr, fromQuickXmlErr e = CitationError.InvalidFormat e.display) ∧
    (∀ e : AttrErr, fromAttrErr e = CitationError.InvalidFormat e.display) :=
  ⟨fun _ => rfl, fun _ => rfl, fun _ => rfl⟩

/-! ### The parallel fan-out reassembles into sequential order -/

theorem lookup_map_key {β : Type} (g : Nat → β) (sched : List Nat) (i : Nat)
    (h : i ∈ sched) :
    (sched.map (fun j => (j, g j))).lookup i = some (g i) := by
  induction sched with
  | nil => cases h
  | cons j tl ih =>
    by_cases hij : i = j
    · subst hij
      simp [List.lookup]
    · have hmem : i ∈ tl := by
        rcases List.mem_cons.mp h with h1 | h1
        · exact absurd h1 hij
        · exact h1
      have hne : (i == j) = false := beq_eq_false_iff_ne.mpr hij
      simpa [List.lookup, hne] using ih hmem

theorem range_map_getD {α β : Type} (f : α → β) (d : α) (l : List α) :
    (List.range l.length).map (fun i => f (l.getD i d)) = l.map f := by
  induction l with
  | nil => simp
  | cons a t ih =>
    rw [List.length_cons, List.range_succ_eq_map]
    simp only [List.map_cons, List.map_map, Function.comp_def, List.getD_cons_zero,
      List.getD_cons_succ]
    rw [ih]

theorem parRunWith_perm {α β : Type} (f : α → β) (da : α) (d : β) (sched : List Nat)
    (parts : List α) (h : ∀ i, i < parts.length → i ∈ sched) :
    parRunWith f da d sched parts = parts.map f := by
  unfold parRunWith
  have hcong :
      (List.range parts.length).map
        (fun i => ((sched.map (fun j => (j, f (parts.getD j da)))).lookup i).getD d) =
      (List.range parts.length).map (fun i => f (parts.getD i da)) := by
    apply List.map_congr_left
    intro i hi
    rw [lookup_map_key (fun j => f (parts.getD j da)) sched i
      (h i (List.mem_range.mp hi))]
    rfl
  rw [hcong, range_map_getD]

theorem parRun_eq_map (f : List Citation → List DuplicateGroup)
    (parts : List (List Citation)) : parRun f parts = parts.map f := by
  apply parRunWith_perm
  intro i hi
  simp [List.mem_reverse, List.mem_range, hi]

/-- C2: `find_duplicates` with `run_in_parallel = true` and with
`run_in_parallel = false` (all other configuration equal) produce identical
results — the same groups in the same order — because the parallel partition
results are reassembled into the deterministic sequential order. -/
theorem find_duplicates_parallel_eq_sequential (gby : Bool) (prefs : List Str)
    (cs : List Citation) :
    find_duplicates ⟨gby, true, prefs⟩ cs = find_duplicates ⟨gby, false, prefs⟩ cs := by
  simp [find_duplicates, parRun_eq_map, partitions]

/-! ### Symmetry of the similarity scorer -/

theorem levFuel_comm (f : Nat) : ∀ xs ys : Str, levFuel f xs ys = levFuel f ys xs := by
  induction f with
  | zero => intro xs ys; simp [levFuel, Nat.add_comm]
  | succ f ih =>
    intro xs ys
    cases xs with
    | nil =>
      cases ys with
      | nil => rfl
      | cons y ys => simp [levFuel]
    | cons x xs =>
      cases ys with
      | nil => simp [levFuel]
      | cons y ys =>
        simp only [levFuel]
        by_cases hxy : x = y
        · have hyx : y = x := hxy.symm
          simp only [if_pos hxy, if_pos hyx]
          exact ih xs ys
        · have hyx : ¬ y = x := fun h => hxy h.symm
          simp only [if_neg hxy, if_neg hyx]
          rw [ih xs ys, ih (x :: xs) ys, ih xs (y :: ys),
            Nat.min_comm (levFuel f ys (x :: xs)) (levFuel f (y :: ys) xs)]

theorem lev_comm (xs ys : Str) : lev xs ys = lev ys xs := by
  unfold lev
  rw [Nat.add_comm]
  exact levFuel_comm _ xs ys

theorem jaccard_comm (A B : Finset Str) : jaccard A B = jaccard B A := by
  simp [jaccard, Finset.union_comm, Finset.inter_comm]

theorem editRatio_comm (x y : Str) : editRatio x y = editRatio y x := by
  unfold editRatio
  rw [Nat.max_comm x.length y.length, lev_comm x y]

theorem titleSim_comm (a b : Citation) : titleSim a b = titleSim b a := by
  unfold titleSim
  rw [jaccard_comm (titleTokens a) (titleTokens b),
    editRatio_comm (normTitle a) (normTitle b)]

theorem titleAvail_comm (a b : Citation) : titleAvail a b = titleAvail b a :=
  Bool.and_comm _ _

theorem titleBlankBoth_comm (a b : Citation) : titleBlankBoth a b = titleBlankBoth b a :=
  Bool.and_comm _ _

theorem authorSim_comm (a b : Citation) : authorSim a b = authorSim b a :=
  jaccard_comm _ _

theorem authorAvail_comm (a b : Citation) : authorAvail a b = authorAvail b a :=
  Bool.and_comm _ _

theorem yearAvail_comm (a b : Citation) : yearAvail a b = yearAvail b a :=
  Bool.and_comm _ _

theorem journalAvail_comm (a b : Citation) : journalAvail a b = journalAvail b a :=
  Bool.and_comm _ _

theorem yearSim_comm (a b : Citation) : yearSim a b = yearSim b a := by
  unfold yearSim
  cases a.year with
  | none => cases b.year <;> rfl
  | some x =>
    cases b.year with
    | none => rfl
    | some y =>
      by_cases hxy : x = y
      · subst hxy; rfl
      · have hyx : ¬ y = x := fun h => hxy h.symm
        simp only [if_neg hxy, if_neg hyx]
        by_cases h2 : x - y = 1 ∨ y - x = 1
        · rw [if_pos h2, if_pos (Or.comm.mp h2)]
        · rw [if_neg h2, if_neg (fun hc => h2 (Or.comm.mp hc))]

theorem pairEq_comm (o p : Option Str) : pairEq o p = pairEq p o := by
  cases o with
  | none => cases p <;> rfl
  | some x =>
    cases p with
    | none => rfl
    | some y => simp [pairEq, eq_comm]

theorem journalMatch_comm (a b : Citation) : journalMatch a b = journalMatch b a := by
  unfold journalMatch
  rw [pairEq_comm (njournal a) (njournal b), pairEq_comm (njabbr a) (njabbr b),
    pairEq_comm (njournal a) (njabbr b), pairEq_comm (njabbr a) (njournal b),
    Bool.or_comm (pairEq (njabbr b) (njournal a)) (pairEq (njournal b) (njabbr a))]

theorem journalSim_comm (a b : Citation) : journalSim a b = journalSim b a := by
  unfold journalSim
  rw [journalMatch_comm]

theorem idMatch_comm (o p : Option Str) : idMatch o p = idMatch p o := by
  cases o with
  | none => cases p <;> rfl
  | some x =>
    cases p with
    | none => rfl
    | some y =>
      simp only [idMatch]
      rw [show (decide (normalize x = normalize y)) = (decide (normalize y = normalize x))
          from by simp [eq_comm],
        Bool.and_comm (decide (x ≠ [])) (decide (y ≠ []))]

theorem fastPath_comm (a b : Citation) : fastPath a b = fastPath b a := by
  unfold fastPath doiMatch pmidMatch
  rw [idMatch_comm a.doi b.doi, idMatch_comm a.pmid b.pmid]

theorem totalWeight_comm (a b : Citation) : totalWeight a b = totalWeight b a := by
  unfold totalWeight
  rw [titleAvail_comm, authorAvail_comm, yearAvail_comm, journalAvail_comm,
    titleBlankBoth_comm]

theorem weightedSum_comm (a b : Citation) : weightedSum a b = weightedSum b a := by
  unfold weightedSum
  rw [titleAvail_comm, authorAvail_comm, yearAvail_comm, journalAvail_comm,
    titleSim_comm, authorSim_comm, yearSim_comm, journalSim_comm]

theorem composite_comm (a b : Citation) : composite a b = composite b a := by
  unfold composite
  rw [totalWeight_comm, weightedSum_comm]

/-- C3: the similarity scorer is symmetric: `score a b = score b a`, both in
the composite value and in the `is_duplicate` flag. -/
theorem score_symmetric (a b : Citation) : score a b = score b a := by
  unfold score
  rw [fastPath_comm, composite_comm]

/-! ### Idempotence of normalization -/

theorem foldAccent_fix {n : Nat} (h : 97 ≤ n ∧ n ≤ 122) : foldAccent n = n := by
  unfold foldAccent
  split_ifs <;> omega

theorem foldAccent_out (n : Nat) :
    foldAccent n = n ∨ (97 ≤ foldAccent n ∧ foldAccent n ≤ 122) := by
  unfold foldAccent
  split_ifs <;> omega

theorem toLowerN_notUpper {n : Nat} (h : ¬(65 ≤ n ∧ n ≤ 90)) : toLowerN n = n := by
  unfold toLowerN
  rw [if_neg h]

theorem toLowerN_out (n : Nat) :
    (toLowerN n = n ∧ ¬(65 ≤ n ∧ n ≤ 90)) ∨ (97 ≤ toLowerN n ∧ toLowerN n ≤ 122) := by
  unfold toLowerN
  split_ifs with h
  · right; omega
  · left; exact ⟨rfl, h⟩

theorem foldChar_idem (n : Nat) : foldChar (foldChar n) = foldChar n := by
  unfold foldChar
  rcases foldAccent_out n with h | h
  · rw [h]
    rcases toLowerN_out n with ⟨h1, _⟩ | h1
    · rw [h1, h, h1]
    · rw [foldAccent_fix h1, toLowerN_notUpper (by omega)]
  · have hfa : toLowerN (foldAccent n) = foldAccent n := toLowerN_notUpper (by omega)
    rw [hfa, foldAccent_fix h, hfa]

theorem wordsAux_ne_nil (l : Str) : wordsAux l ≠ [] := by
  cases l with
  | nil => simp [wordsAux]
  | cons c cs =>
    simp only [wordsAux]
    by_cases h : isSpace c <;> simp [h]

theorem headD_mem {α : Type} {l : List α} (h : l ≠ []) (d : α) : l.headD d ∈ l := by
  cases l with
  | nil => exact absurd rfl h
  | cons a t => simp

theorem mem_wordsAux_sub {c : Nat} : ∀ {l : Str} {w : Str}, w ∈ wordsAux l → c ∈ w → c ∈ l := by
  intro l
  induction l with
  | nil =>
    intro w hw hc
    simp [wordsAux] at hw
    subst hw
    cases hc
  | cons a t ih =>
    intro w hw hc
    simp only [wordsAux] at hw
    by_cases ha : isSpace a
    · rw [if_pos ha] at hw
      rcases List.mem_cons.mp hw with h1 | h1
      · subst h1; cases hc
      · exact List.mem_cons_of_mem a (ih h1 hc)
    · rw [if_neg ha] at hw
      rcases List.mem_cons.mp hw with h1 | h1
      · subst h1
        rcases List.mem_cons.mp hc with h2 | h2
        · rw [h2]; exact List.mem_cons_self a t
        · have hh := headD_mem (wordsAux_ne_nil t) ([] : Str)
          exact List.mem_cons_of_mem a (ih hh h2)
      · have h2 : w ∈ wordsAux t := List.mem_of_mem_tail h1
        exact List.mem_cons_of_mem a (ih h2 hc)

theorem mem_wordsAux_not_space {c : Nat} :
    ∀ {l : Str} {w : Str}, w ∈ wordsAux l → c ∈ w → isSpace c = false := by
  intro l
  induction l with
  | nil =>
    intro w hw hc
    simp [wordsAux] at hw
    subst hw
    cases hc
  | cons a t ih =>
    intro w hw hc
    simp only [wordsAux] at hw
    by_cases ha : isSpace a
    · rw [if_pos ha] at hw
      rcases List.mem_cons.mp hw with h1 | h1
      · subst h1; cases hc
      · exact ih h1 hc
    · rw [if_neg ha] at hw
      rcases List.mem_cons.mp hw with h1 | h1
      · subst h1
        rcases List.mem_cons.mp hc with h2 | h2
        · rw [h2]
          rcases Bool.eq_false_or_eq_true (isSpace a) with ht | hf
          · exact absurd ht ha
          · exact hf
        · have hh := headD_mem (wordsAux_ne_nil t) ([] : Str)
          exact ih hh h2
      · exact ih (List.mem_of_mem_tail h1) hc

theorem mem_words_sub {c : Nat} {w l : Str} (hw : w ∈ words l) (hc : c ∈ w) : c ∈ l :=
  mem_wordsAux_sub (List.mem_of_mem_filter hw) hc

theorem mem_words_inv {w : Str} {l : Str} (hw : w ∈ words l) :
    w ≠ [] ∧ ∀ c ∈ w, isSpace c = false := by
  constructor
  · have h2 := (List.mem_filter.mp hw).2
    simpa using h2
  · intro c hc
    exact mem_wordsAux_not_space (List.mem_of_mem_filter hw) hc

theorem wordsAux_all_word (w : Str) (hs : ∀ c ∈ w, isSpace c = false) :
    wordsAux w = [w] := by
  induction w with
  | nil => rfl
  | cons a t ih =>
    have ha : isSpace a = false := hs a (List.mem_cons_self a t)
    have ih' := ih (fun c hc => hs c (List.mem_cons_of_mem a hc))
    simp [wordsAux, ha, ih']

theorem wordsAux_word_append (w : Str) (hs : ∀ c ∈ w, isSpace c = false) (l : Str) :
    wordsAux (w ++ 32 :: l) = w :: wordsAux l := by
  induction w with
  | nil => simp [wordsAux, isSpace]
  | cons a t ih =>
    have ha : isSpace a = false := hs a (List.mem_cons_self a t)
    have ih' := ih (fun c hc => hs c (List.mem_cons_of_mem a hc))
    simp [wordsAux, ha, ih']

theorem words_joinWords (ws : List Str)
    (h : ∀ w ∈ ws, w ≠ [] ∧ ∀ c ∈ w, isSpace c = false) :
    words (joinWords ws) = ws := by
  induction ws with
  | nil => rfl
  | cons w ws ih =>
    cases ws with
    | nil =>
      obtain ⟨hne, hns⟩ := h w (List.mem_cons_self w [])
      simp [joinWords, words, wordsAux_all_word w hns, hne]
    | cons x ws2 =>
      obtain ⟨hne, hns⟩ := h w (List.mem_cons_self w (x :: ws2))
      have ih' := ih (fun u hu => h u (List.mem_cons_of_mem w hu))
      simp only [joinWords]
      rw [words, wordsAux_word_append w hns, List.filter_cons]
      rw [if_pos (by simp [hne])]
      exact congrArg (List.cons w) ih'

theorem mem_joinWords {c : Nat} :
    ∀ {ws : List Str}, c ∈ joinWords ws → c = 32 ∨ ∃ w ∈ ws, c ∈ w := by
  intro ws
  induction ws with
  | nil => intro hc; cases hc
  | cons w ws ih =>
    intro hc
    cases ws with
    | nil => exact Or.inr ⟨w, List.mem_cons_self w [], hc⟩
    | cons x ws2 =>
      simp only [joinWords] at hc
      rcases List.mem_append.mp hc with h1 | h1
      · exact Or.inr ⟨w, List.mem_cons_self w (x :: ws2), h1⟩
      · rcases List.mem_cons.mp h1 with h2 | h2
        · exact Or.inl h2
        · rcases ih h2 with h3 | ⟨u, hu, hcu⟩
          · exact Or.inl h3
          · exact Or.inr ⟨u, List.mem_cons_of_mem w hu, hcu⟩

theorem map_fix {f : Nat → Nat} : ∀ l : Str, (∀ x ∈ l, f x = x) → l.map f = l := by
  intro l
  induction l with
  | nil => intro _; rfl
  | cons a t ih =>
    intro h
    simp only [List.map_cons, h a (List.mem_cons_self a t)]
    rw [ih (fun x hx => h x (List.mem_cons_of_mem a hx))]

theorem mem_normalize_fix {c : Nat} {s : Str} (hc : c ∈ normalize s) :
    foldChar c = c ∧ keep c = true := by
  unfold normalize at hc
  rcases mem_joinWords hc with h32 | ⟨w, hw, hcw⟩
  · subst h32
    exact ⟨rfl, rfl⟩
  · have hmem : c ∈ (s.map foldChar).filter keep := mem_words_sub hw hcw
    have hkeep : keep c = true := List.of_mem_filter hmem
    have hmap : c ∈ s.map foldChar := List.mem_of_mem_filter hmem
    obtain ⟨x, _, rfl⟩ := List.mem_map.mp hmap
    exact ⟨foldChar_idem x, hkeep⟩

/-- C4: field normalization (used for title and author strings) is a pure
function and is idempotent: `normalize (normalize x) = normalize x` for every
string `x`. -/
theorem normalize_idempotent (x : Str) : normalize (normalize x) = normalize x := by
  have h1 : (normalize x).map foldChar = normalize x :=
    map_fix _ (fun c hc => (mem_normalize_fix hc).1)
  have h2 : (normalize x).filter keep = normalize x :=
    List.filter_eq_self.mpr (fun c hc => (mem_normalize_fix hc).2)
  have h3 : words (normalize x) = words ((x.map foldChar).filter keep) := by
    unfold normalize
    exact words_joinWords _ (fun w hw => mem_words_inv hw)
  show joinWords (words (((normalize x).map foldChar).filter keep)) = normalize x
  rw [h1, h2, h3]
  rfl

/-! ### Clusterer and orchestrator lemmas -/

theorem find_duplicates_eq_map (cfg : DeduplicatorConfig) (cs : List Citation) :
    find_duplicates cfg cs =
      ((partitions cfg cs).map (processPart cfg.source_preferences)).flatten := by
  unfold find_duplicates
  rcases Bool.eq_false_or_eq_true cfg.run_in_parallel with h | h <;>
    simp [h, parRun_eq_map]

theorem eraseIdx_ne_nil {α : Type} {l : List α} (h : 2 ≤ l.length) (i : Nat) :
    l.eraseIdx i ≠ [] := by
  intro hnil
  have h2 := congrArg List.length hnil
  rw [List.length_eraseIdx] at h2
  simp only [List.length_nil] at h2
  split at h2 <;> omega

theorem select_dups_ne_nil (prefs : List Str) (cl : List Citation) (h : 2 ≤ cl.length) :
    (select prefs cl).duplicates ≠ [] :=
  eraseIdx_ne_nil h _

/-- C6: every `DuplicateGroup` returned by `find_duplicates` has a non-empty
`duplicates` sequence: only clusters of size at least two are emitted and
singleton clusters are dropped. -/
theorem find_duplicates_group_has_duplicate (cfg : DeduplicatorConfig)
    (cs : List Citation) (g : DuplicateGroup) (hg : g ∈ find_duplicates cfg cs) :
    g.duplicates ≠ [] := by
  rw [find_duplicates_eq_map] at hg
  rcases List.mem_flatten.mp hg with ⟨res, hres, hgres⟩
  rcases List.mem_map.mp hres with ⟨p, _, rfl⟩
  unfold processPart at hgres
  rcases List.mem_map.mp hgres with ⟨idxs, hidxs, rfl⟩
  have hlen : 2 ≤ idxs.length := by
    have h2 := (List.mem_filter.mp hidxs).2
    simpa using h2
  have hlen2 : 2 ≤ (idxs.map (fun i => p.getD i Citation.default)).length := by
    simpa using hlen
  exact select_dups_ne_nil _ _ hlen2

/-- Witness for C6 at a concrete input: two citations sharing DOI "a" produce
one group, and its `duplicates` list is non-empty. -/
theorem find_duplicates_group_has_duplicate_witness :
    (⟨cA, [cB]⟩ : DuplicateGroup) ∈ find_duplicates ⟨false, false, []⟩ [cA, cB] ∧
    (⟨cA, [cB]⟩ : DuplicateGroup).duplicates ≠ [] :=
  ⟨by decide, find_duplicates_group_has_duplicate ⟨false, false, []⟩ [cA, cB] _ (by decide)⟩

theorem better_self (prefs : List Str) (c : Citation) : better prefs c c = false := by
  simp [better]

theorem clusterParents_pair_t {a b : Citation} (h : isDup a b = true) :
    clusterParents [a, b] = [1, 1] := by
  simp +decide [clusterParents, allPairs, List.range_succ, h, ufUnion, ufFind, setNth]

theorem clusterParents_pair_f {a b : Citation} (h : isDup a b = false) :
    clusterParents [a, b] = [0, 1] := by
  simp +decide [clusterParents, allPairs, List.range_succ, h]

theorem clusters_pair_t {a b : Citation} (h : isDup a b = true) :
    clusters [a, b] = [[0, 1]] := by
  simp only [clusters, clusterParents_pair_t h, List.length_cons, List.length_nil]
  decide

theorem clusters_pair_f {a b : Citation} (h : isDup a b = false) :
    clusters [a, b] = [[0], [1]] := by
  simp only [clusters, clusterParents_pair_f h, List.length_cons, List.length_nil]
  decide

theorem processPart_pair_t (prefs : List Str) {a b : Citation} (h : isDup a b = true) :
    processPart prefs [a, b] = [select prefs [a, b]] := by
  unfold processPart
  rw [clusters_pair_t h]
  simp +decide

theorem processPart_pair_f (prefs : List Str) {a b : Citation} (h : isDup a b = false) :
    processPart prefs [a, b] = [] := by
  unfold processPart
  rw [clusters_pair_f h]
  simp +decide

theorem partitions_pair_same_year (cfg : DeduplicatorConfig) {a b : Citation}
    (hy : a.year = b.year) : partitions cfg [a, b] = [[a, b]] := by
  unfold partitions
  have hb : b.year = a.year := hy.symm
  rcases Bool.eq_false_or_eq_true cfg.group_by_year with hg | hg
  · simp +decide [hg, firstDedup, hb]
  · simp [hg]

theorem select_pair (prefs : List Str) (a b : Citation) :
    select prefs [a, b] = ⟨a, [b]⟩ ∨ select prefs [a, b] = ⟨b, [a]⟩ := by
  unfold select selectIdx
  rw [show ([a, b] : List Citation).enum = [(0, a), (1, b)] from rfl]
  rcases Bool.eq_false_or_eq_true (better prefs b a) with hb | hb
  · right
    simp [List.foldl_cons, List.foldl_nil, better_self, hb, List.eraseIdx]
  · left
    simp [List.foldl_cons, List.foldl_nil, better_self, hb, List.eraseIdx]

/-- C1 counterexample: with `group_by_year` enabled, two citations with equal
non-empty DOIs but diverging years land in different year partitions, so the
scorer judges them duplicates yet `find_duplicates` returns no group placing
them together — the unconditional "consequently placed in the same group"
part of the claim is false. -/
theorem identifier_fastpath_counterexample :
    cY1.doi = some [100] ∧ cY2.doi = some [100] ∧
    (score cY1 cY2).is_duplicate = true ∧
    find_duplicates ⟨true, false, []⟩ [cY1, cY2] = [] := by
  decide

/-- C1 (amended): if two citations both have a non-empty DOI with equal
normalizations (or both have a non-empty, equal PMID), the scorer returns
`is_duplicate = true` immediately; and whenever they are compared within the
same partition — `group_by_year = false`, or equal year values — under any
configuration `find_duplicates` places them in the same duplicate group. -/
theorem identifier_fastpath_groups (cfg : DeduplicatorConfig) (a b : Citation)
    (h : doiMatch a b = true ∨ pmidMatch a b = true)
    (hpart : cfg.group_by_year = false ∨ a.year = b.year) :
    (score a b).is_duplicate = true ∧
    ∃ g ∈ find_duplicates cfg [a, b],
      (g.unique = a ∧ g.duplicates = [b]) ∨ (g.unique = b ∧ g.duplicates = [a]) := by
  have hfp : fastPath a b = true := by
    rcases h with h | h <;> simp [fastPath, h]
  have hdup : isDup a b = true := by simp [isDup, score, hfp]
  refine ⟨by simp [score, hfp], ?_⟩
  have hparts : partitions cfg [a, b] = [[a, b]] := by
    rcases hpart with hp | hp
    · simp [partitions, hp]
    · exact partitions_pair_same_year cfg hp
  have hfd : find_duplicates cfg [a, b] = [select cfg.source_preferences [a, b]] := by
    rw [find_duplicates_eq_map, hparts]
    simp [processPart_pair_t _ hdup]
  rw [hfd]
  rcases select_pair cfg.source_preferences a b with hsel | hsel
  · exact ⟨select cfg.source_preferences [a, b], by simp, by rw [hsel]; exact Or.inl ⟨rfl, rfl⟩⟩
  · exact ⟨select cfg.source_preferences [a, b], by simp, by rw [hsel]; exact Or.inr ⟨rfl, rfl⟩⟩

/-- Witness for C1 (amended) at a concrete input: `cA` and `cB` share DOI "a"
and have equal (absent) years, so they group even under year partitioning. -/
theorem identifier_fastpath_groups_witness :
    ((doiMatch cA cB = true ∨ pmidMatch cA cB = true) ∧
      ((⟨true, false, []⟩ : DeduplicatorConfig).group_by_year = false ∨ cA.year = cB.year)) ∧
    ((score cA cB).is_duplicate = true ∧
      ∃ g ∈ find_duplicates ⟨true, false, []⟩ [cA, cB],
        (g.unique = cA ∧ g.duplicates = [cB]) ∨ (g.unique = cB ∧ g.duplicates = [cA])) :=
  ⟨⟨Or.inl (by decide), Or.inr (by decide)⟩,
    identifier_fastpath_groups ⟨true, false, []⟩ cA cB (Or.inl (by decide))
      (Or.inr (by decide))⟩

/-- C5 counterexample: two citations with empty titles, no authors and no
year, but carrying the same DOI "x": the identifier fast path fires, the
scorer reports them duplicates, and `find_duplicates` groups them — so
"never reports them as duplicates / never clusters" is false as stated. -/
theorem blank_records_counterexample :
    cBlank1.title = [] ∧ cBlank2.title = [] ∧
    cBlank1.authors = [] ∧ cBlank2.authors = [] ∧
    cBlank1.year = none ∧ cBlank2.year = none ∧
    (score cBlank1 cBlank2).is_duplicate = true ∧
    find_duplicates ⟨false, false, []⟩ [cBlank1, cBlank2] ≠ [] := by
  decide

theorem clamp_lt {x c : ℚ} (h0 : 0 < c) (hx : x < c) : min 1 (max 0 x) < c :=
  lt_of_le_of_lt (min_le_right _ _) (max_lt h0 hx)

/-- C5 (amended): two citations with empty titles, no shared normalized author
keys and no year are never reported as duplicates by the scorer and never
grouped by `find_duplicates`, provided the identifier fast path cannot fire
(one side has neither DOI nor PMID) — without that proviso the claim fails,
as equal non-empty DOIs merge any two records.  Both titles being blank
zeroes the title term without redistributing its weight, so no combination of
the remaining fields (including a matching journal) reaches the threshold. -/
theorem blank_records_never_cluster (cfg : DeduplicatorConfig) (a b : Citation)
    (ht : a.title = [] ∧ b.title = [])
    (ha : authorKeys a ∩ authorKeys b = ∅)
    (hy : a.year = none ∧ b.year = none)
    (hid : a.doi = none ∧ a.pmid = none) :
    (score a b).is_duplicate = false ∧ find_duplicates cfg [a, b] = [] := by
  have hnta : normTitle a = [] := by rw [normTitle, ht.1]; rfl
  have hntb : normTitle b = [] := by rw [normTitle, ht.2]; rfl
  have htA : titleAvail a b = false := by simp [titleAvail, hnta]
  have htB : titleBlankBoth a b = true := by simp [titleBlankBoth, hnta, hntb]
  have hfp : fastPath a b = false := by
    rcases hbd : b.doi with _ | d <;> rcases hbp : b.pmid with _ | p <;>
      simp [fastPath, doiMatch, pmidMatch, idMatch, hid.1, hid.2, hbd, hbp]
  have hsim : authorSim a b = 0 := by
    unfold authorSim jaccard
    rw [ha]
    simp
  have hyA : yearAvail a b = false := by simp [yearAvail, hy.1]
  have hlt : composite a b < threshold := by
    unfold composite totalWeight weightedSum journalSim
    rw [htA, htB, hyA, hsim]
    rcases Bool.eq_false_or_eq_true (authorAvail a b) with hA | hA <;>
      rcases Bool.eq_false_or_eq_true (journalAvail a b) with hJ | hJ <;>
      rcases Bool.eq_false_or_eq_true (journalMatch a b) with hM | hM <;>
      simp only [hA, hJ, hM] <;>
      rw [if_neg (by norm_num)] <;>
      exact clamp_lt (by norm_num [threshold]) (by norm_num [threshold])
  have hscore : (score a b).is_duplicate = false := by
    simp [score, hfp, not_le.mpr hlt]
  have hdupf : isDup a b = false := hscore
  refine ⟨hscore, ?_⟩
  rw [find_duplicates_eq_map, partitions_pair_same_year cfg (hy.1.trans hy.2.symm)]
  simp [processPart_pair_f _ hdupf]

/-- Witness for C5 (amended) at a concrete input: a blank citation and a blank
citation with one author, both carrying the same journal "n", under year
partitioning and parallelism — even the matching journal does not merge them. -/
theorem blank_records_never_cluster_witness :
    ((cEmptyA.title = [] ∧ cEmptyB.title = []) ∧
      authorKeys cEmptyA ∩ authorKeys cEmptyB = ∅ ∧
      (cEmptyA.year = none ∧ cEmptyB.year = none) ∧
      (cEmptyA.doi = none ∧ cEmptyA.pmid = none)) ∧
    ((score cEmptyA cEmptyB).is_duplicate = false ∧
      find_duplicates ⟨true, true, []⟩ [cEmptyA, cEmptyB] = []) :=
  ⟨⟨by decide, by decide, by decide, by decide⟩,
    blank_records_never_cluster ⟨true, true, []⟩ cEmptyA cEmptyB
      (by decide) (by decide) (by decide) (by decide)⟩

end Biblib
